import Mathlib

/-!
Shallow embedding of the retrieval core of the Vault22 FAQ chatbot
(lambda-function.js, process-faqs.js, content-manager lambda).

JavaScript strings are modelled as Lean `String` (a list of characters;
ASCII inputs behave identically to UTF-16 code-unit indexing), JavaScript
numbers used as vector components are modelled as exact rationals, and the
real-valued results of `Math.sqrt` and division are modelled in `ℝ`.
Thrown JavaScript `Error` objects are modelled as an explicit error value
carried in `Except` (`name` and `message` fields, as on a JS `Error`).
-/

namespace Chatbot

/-! ### JavaScript string primitives used by the source -/

/-- The ASCII characters matched by the JavaScript `\s` class (the source
documents are ASCII markdown). -/
def jsWhitespace (c : Char) : Bool :=
  c == ' ' || c == '\t' || c == '\n' || c == '\r' || c == '\x0b' || c == '\x0c'

/-- Sentence-terminator characters of the chunker's split regex `[.!?]`. -/
def sentTerm (c : Char) : Bool :=
  c == '.' || c == '!' || c == '?'

/-- Helper for `content.split(/(?<=[.!?])\s+/)`: a separator is a maximal
whitespace run whose preceding character is `.`, `!` or `?`.  `revCur`
holds the current sentence reversed (its head is the previously scanned
character); `inSep` records that the scanner is inside a separator run,
whose remaining whitespace is consumed. -/
def splitSentsAux : List Char → Bool → List Char → List (List Char)
  | revCur, _, [] => [revCur.reverse]
  | revCur, inSep, c :: rest =>
    if inSep && jsWhitespace c then
      splitSentsAux revCur true rest
    else if !inSep && jsWhitespace c && sentTerm (revCur.headD 'a') then
      revCur.reverse :: splitSentsAux [] true rest
    else
      splitSentsAux (c :: revCur) false rest

/-- Model of `content.split(/(?<=[.!?])\s+/)` from `chunkDocument`. -/
def splitSents (s : String) : List String :=
  (splitSentsAux [] false s.data).map List.asString

/-- Model of `String.prototype.trim()`. -/
def jsTrim (s : String) : String :=
  (((s.data.dropWhile jsWhitespace).reverse.dropWhile jsWhitespace).reverse).asString

/-- Model of `str.slice(-overlap)` as used for the chunk overlap seed: the last
`overlap` characters, except that `slice(-0)` is `slice(0)`, the whole
string. -/
def jsSliceFromEnd (s : String) (overlap : ℕ) : String :=
  if overlap = 0 then s else (s.data.drop (s.data.length - overlap)).asString

/-- Model of `str.split(sep)` for a one-character separator (JS semantics: keeps
empty fields, `"".split(sep) = [""]`). -/
def jsSplitCharAux (sep : Char) : List Char → List Char → List String
  | revCur, [] => [revCur.reverse.asString]
  | revCur, c :: rest =>
    if c == sep then
      revCur.reverse.asString :: jsSplitCharAux sep [] rest
    else
      jsSplitCharAux sep (c :: revCur) rest

def jsSplitChar (sep : Char) (s : String) : List String :=
  jsSplitCharAux sep [] s.data

/-- Model of `str.endsWith(suffix)`. -/
def jsEndsWith (suffix s : String) : Bool :=
  List.isSuffixOf suffix.data s.data

/-! ### Chunker (`chunkDocument`, identical in process-faqs.js and the
content-manager lambda) -/

/-- The `for (const sentence of sentences)` loop body of `chunkDocument`,
one structural step per sentence.  Returns the accumulated `chunks` array
and the final `currentChunk`. -/
def chunkLoop (chunkSize overlap : ℕ) :
    List String → String → List String → List String × String
  | [], currentChunk, chunks => (chunks, currentChunk)
  | sentence :: rest, currentChunk, chunks =>
    let testChunk := currentChunk ++ " " ++ sentence
    if chunkSize < testChunk.length ∧ 0 < currentChunk.length then
      chunkLoop chunkSize overlap rest
        (jsSliceFromEnd currentChunk overlap ++ " " ++ sentence)
        (chunks ++ [jsTrim currentChunk])
    else
      chunkLoop chunkSize overlap rest testChunk chunks

/-- Model of `chunkDocument(content, chunkSize, overlap)`. -/
def chunkDocument (content : String) (chunkSize overlap : ℕ) : List String :=
  let sentences := splitSents content
  let r := chunkLoop chunkSize overlap sentences "" []
  let chunks := if 0 < (jsTrim r.2).length then r.1 ++ [jsTrim r.2] else r.1
  chunks.filter (fun chunk => 50 < chunk.length)

/-- Fuel-indexed version of the `chunkDocument` loop: one unit of fuel is
one iteration of the `for` loop; `none` means the fuel was exhausted with
sentences still unprocessed.  Used to state that the loop terminates after
exactly one iteration per sentence, for every configuration. -/
def chunkLoopFuel (chunkSize overlap : ℕ) :
    ℕ → List String → String → List String → Option (List String × String)
  | _, [], currentChunk, chunks => some (chunks, currentChunk)
  | 0, _ :: _, _, _ => none
  | fuel + 1, sentence :: rest, currentChunk, chunks =>
    let testChunk := currentChunk ++ " " ++ sentence
    if chunkSize < testChunk.length ∧ 0 < currentChunk.length then
      chunkLoopFuel chunkSize overlap fuel rest
        (jsSliceFromEnd currentChunk overlap ++ " " ++ sentence)
        (chunks ++ [jsTrim currentChunk])
    else
      chunkLoopFuel chunkSize overlap fuel rest testChunk chunks

/-! ### Errors (JS `Error` objects carried by `throw`) -/

/-- A thrown JavaScript error: its `name` and `message` fields. -/
structure JsError where
  name : String
  message : String
deriving DecidableEq, Repr

/-- The error thrown by `cosineSimilarity` on a length mismatch
(`throw new Error('Vectors must have the same length')`); this is the
`DimensionMismatch` condition of the specification. -/
def dimensionMismatchError : JsError :=
  ⟨"Error", "Vectors must have the same length"⟩

/-- The durable-storage "object not found" error (`error.name === 'NoSuchKey'`
from the S3 `GetObject` call). -/
def noSuchKeyError : JsError :=
  ⟨"NoSuchKey", "The specified key does not exist."⟩

/-! ### Data model -/

/-- The `metadata` object of one embedded record, as written by ingestion. -/
structure RecordMeta where
  source : String
  category : String
  chunkIndex : ℕ
  totalChunks : ℕ
  lastUpdated : String
deriving DecidableEq, Repr

/-- One embedded FAQ record, as serialized in `faq-embeddings.json`.
Vector components (JS numbers) are modelled as exact rationals. -/
structure Record where
  id : String
  text : String
  embedding : List ℚ
  metadata : RecordMeta
deriving DecidableEq, Repr

/-- A record together with its `similarity` score, i.e. the
`{...item, similarity}` object built by `findRelevantChunks`.  The score
(a `Math.sqrt` quotient) lives in `ℝ`. -/
structure Scored where
  record : Record
  similarity : ℝ

/-! ### Cosine similarity (`cosineSimilarity`) -/

/-- The `dotProduct` accumulator of `cosineSimilarity`. -/
def dotProduct (vecA vecB : List ℚ) : ℚ :=
  (List.zipWith (· * ·) vecA vecB).sum

/-- The `normA`/`normB` accumulators of `cosineSimilarity` (sums of squared
components, before the square root). -/
def sumSq (vec : List ℚ) : ℚ :=
  (vec.map (fun v => v * v)).sum

/-- Model of `cosineSimilarity(vecA, vecB)`: throws on a length mismatch, returns `0`
when the denominator `Math.sqrt(normA) * Math.sqrt(normB)` is zero, and the
normalized dot product otherwise. -/
noncomputable def cosineSimilarity (vecA vecB : List ℚ) : Except JsError ℝ :=
  if vecA.length ≠ vecB.length then
    .error dimensionMismatchError
  else
    let denominator := Real.sqrt (sumSq vecA) * Real.sqrt (sumSq vecB)
    if denominator = 0 then .ok 0
    else .ok ((dotProduct vecA vecB : ℝ) / denominator)

/-! ### Retriever (`findRelevantChunks`) -/

/-- Model of `arr.slice(0, k)` with ECMAScript semantics for the end index: a
negative `k` counts from the end of the array. -/
def jsSlice (l : List α) (k : ℤ) : List α :=
  l.take (if k < 0 then ((l.length : ℤ) + k).toNat else min k.toNat l.length)

/-- Insert one element into a similarity-descending list, after every
element of strictly larger similarity — the stable-sort placement used by
`similarities.sort((a, b) => b.similarity - a.similarity)`. -/
noncomputable def insertDesc (x : Scored) : List Scored → List Scored
  | [] => [x]
  | y :: ys =>
    if x.similarity < y.similarity then y :: insertDesc x ys else x :: y :: ys

/-- The observable behavior of `Array.prototype.sort` with comparator
`(a, b) => b.similarity - a.similarity`: a stable sort by similarity
descending. -/
noncomputable def sortDesc : List Scored → List Scored
  | [] => []
  | x :: xs => insertDesc x (sortDesc xs)

/-- The `faqEmbeddings.map(item => ({...item, similarity: ...}))` step:
builds a fresh scored copy of every record in store order, left to right,
propagating the first thrown error. -/
noncomputable def scoreAll (questionEmbedding : List ℚ) :
    List Record → Except JsError (List Scored)
  | [] => .ok []
  | item :: rest =>
    match cosineSimilarity questionEmbedding item.embedding with
    | .error e => .error e
    | .ok s =>
      match scoreAll questionEmbedding rest with
      | .error e => .error e
      | .ok tail => .ok (⟨item, s⟩ :: tail)

/-- Model of `findRelevantChunks(questionEmbedding, faqEmbeddings, topK)`. -/
noncomputable def findRelevantChunks (questionEmbedding : List ℚ)
    (faqEmbeddings : List Record) (topK : ℤ) : Except JsError (List Scored) :=
  match scoreAll questionEmbedding faqEmbeddings with
  | .error e => .error e
  | .ok similarities => .ok (jsSlice (sortDesc similarities) topK)

/-- Model of `buildContext(chunks)`. -/
def buildContext (chunks : List Scored) : String :=
  String.intercalate "\n" <|
    chunks.enum.map fun ic =>
      "[Source " ++ Nat.repr (ic.1 + 1) ++ ": " ++ ic.2.record.metadata.category
        ++ "]\n" ++ ic.2.record.text ++ "\n"

/-! ### Vector store cache (`loadFaqEmbeddings`) -/

/-- The `CACHE_DURATION` constant — 1 hour in milliseconds. -/
def CACHE_DURATION : ℕ := 3600000

/-- The module-level mutable state of lambda-function.js:
`embeddingsCache` (a parsed JSON value — `none` models both the initial
`null` and a stored parsed `null`) and `cacheTimestamp`. -/
structure CacheState where
  embeddingsCache : Option (List Record)
  cacheTimestamp : ℕ
deriving DecidableEq, Repr

/-- Model of `loadFaqEmbeddings()` as a function of the current state, the clock
(`Date.now()`, in ms) and the outcome of the S3 read + JSON parse.
Returns the function's result, the updated module state, and whether the
durable-storage fetch was performed. -/
def loadFaqEmbeddings (st : CacheState) (now : ℕ)
    (fetch : Except JsError (Option (List Record))) :
    Except JsError (Option (List Record)) × CacheState × Bool :=
  match st.embeddingsCache with
  | some cached =>
    if now - st.cacheTimestamp < CACHE_DURATION then
      (.ok (some cached), st, false)
    else
      match fetch with
      | .ok parsed => (.ok parsed, ⟨parsed, now⟩, true)
      | .error e => (.error e, st, true)
  | none =>
    match fetch with
    | .ok parsed => (.ok parsed, ⟨parsed, now⟩, true)
    | .error e => (.error e, st, true)

/-! ### Lambda handler (`exports.handler` of lambda-function.js) -/

/-- An incoming API Gateway event.  `question` is the `question` field of
the JSON-parsed request body (`JSON.parse(event.body || '{}')` is
abstracted: a missing or question-less body is `none`). -/
structure LambdaEvent where
  httpMethod : String
  question : Option String
deriving DecidableEq, Repr

/-- Outcomes of the three external calls a request can make: the S3
embeddings read (+parse), the Titan question embedding, and the Claude
generation. -/
structure ExternalEnv where
  fetchEmbeddings : Except JsError (Option (List Record))
  embedQuestion : Except JsError (List ℚ)
  generateText : Except JsError String

/-- The external calls actually issued while handling a request, in order. -/
inductive ExtCall where
  | s3GetEmbeddings
  | bedrockEmbed
  | bedrockGenerate
deriving DecidableEq, Repr

/-- One entry of a `corsResponse(statusCode, body)` — the JSON body shapes
the handler actually produces. -/
inductive RespBody where
  | emptyObj
  | errorOnly (error : String)
  | errorMessage (error message : String)
  | answer (answer : String)
deriving DecidableEq, Repr

structure Response where
  statusCode : ℕ
  body : RespBody
deriving DecidableEq, Repr

/-- Model of `exports.handler(event)`: returns the HTTP response, the module cache
state after the request, and the trace of external calls made. -/
noncomputable def handler (event : LambdaEvent) (env : ExternalEnv)
    (st : CacheState) (now : ℕ) : Response × CacheState × List ExtCall :=
  if event.httpMethod = "OPTIONS" then
    (⟨200, .emptyObj⟩, st, [])
  else
    match event.question with
    | none => (⟨400, .errorOnly "Missing required parameter: question"⟩, st, [])
    | some question =>
      -- `!question || question.trim().length === 0`
      if (jsTrim question).length = 0 then
        (⟨400, .errorOnly "Missing required parameter: question"⟩, st, [])
      else
        match loadFaqEmbeddings st now env.fetchEmbeddings with
        | (.error e, st', fetched) =>
          (⟨500, .errorMessage "Internal server error" e.message⟩, st',
            if fetched then [.s3GetEmbeddings] else [])
        | (.ok faqEmbeddings, st', fetched) =>
          let calls := if fetched then [ExtCall.s3GetEmbeddings] else []
          -- `!faqEmbeddings || faqEmbeddings.length === 0`
          if faqEmbeddings.getD [] = [] then
            (⟨503, .errorOnly
              "FAQ knowledge base not initialized. Please run document processor first."⟩,
              st', calls)
          else
            match env.embedQuestion with
            | .error e =>
              (⟨500, .errorMessage "Internal server error" e.message⟩, st',
                calls ++ [.bedrockEmbed])
            | .ok questionEmbedding =>
              match findRelevantChunks questionEmbedding (faqEmbeddings.getD []) 3 with
              | .error e =>
                (⟨500, .errorMessage "Internal server error" e.message⟩, st',
                  calls ++ [.bedrockEmbed])
              | .ok relevantChunks =>
                let _context := buildContext relevantChunks
                match env.generateText with
                | .error e =>
                  (⟨500, .errorMessage "Internal server error" e.message⟩, st',
                    calls ++ [.bedrockEmbed, .bedrockGenerate])
                | .ok answer =>
                  (⟨200, .answer answer⟩, st', calls ++ [.bedrockEmbed, .bedrockGenerate])

/-! ### Ingestion (`handleProcessEmbeddings` of the content-manager lambda;
`processFaqDocuments` of process-faqs.js uses the same id scheme) -/

def CHUNK_SIZE : ℕ := 1000
def CHUNK_OVERLAP : ℕ := 200

/-- Model of `file.Key.split('/').pop()` — the final path component. -/
def jsFileName (key : String) : String :=
  (jsSplitChar '/' key).getLastD ""

/-- Model of `file.Key.split('/')[1]` — the category directory of a
`content/<category>/<file>.md` key (JS yields `undefined` when absent;
modelled as `""`). -/
def jsCategoryOf (key : String) : String :=
  (jsSplitChar '/' key).getD 1 ""

/-- The per-file body of the `handleProcessEmbeddings` loop: chunk the
document and build one embedded record per chunk.  `embed` is the external
Titan embedding call, `nowIso` the `new Date().toISOString()` timestamp. -/
def processFile (embed : String → List ℚ) (nowIso : String)
    (key content : String) : List Record :=
  let filename := jsFileName key
  let category := jsCategoryOf key
  let chunks := chunkDocument content CHUNK_SIZE CHUNK_OVERLAP
  chunks.enum.map fun ic =>
    { id := filename ++ "_chunk_" ++ Nat.repr ic.1
      text := ic.2
      embedding := embed ic.2
      metadata :=
        { source := filename
          category := category
          chunkIndex := ic.1
          totalChunks := chunks.length
          lastUpdated := nowIso } }

/-- The `categories && !categories.includes(category)` skip test. -/
def skipFile (categories : Option (List String)) (key : String) : Bool :=
  match categories with
  | some cs => !cs.contains (jsCategoryOf key)
  | none => false

/-- Model of `handleProcessEmbeddings`: list the `.md` objects, skip filtered
categories, and accumulate all embedded records (`allEmbeddings`).
`files` is the S3 listing as (key, content) pairs. -/
def handleProcessEmbeddings (files : List (String × String))
    (categories : Option (List String)) (embed : String → List ℚ)
    (nowIso : String) : List Record :=
  let mdFiles := files.filter fun f => jsEndsWith ".md" f.1
  mdFiles.foldl
    (fun allEmbeddings f =>
      if skipFile categories f.1 then allEmbeddings
      else allEmbeddings ++ processFile embed nowIso f.1 f.2)
    []

/-! ### Concrete fixtures and auxiliary definitions for the proofs -/

/-- The ordering the retriever's comparator sorts by: similarity
descending. -/
def simGE (a b : Scored) : Prop := b.similarity ≤ a.similarity

/-- A concrete one-record store used by the witnesses. -/
def testRecord : Record :=
  { id := "doc.md_chunk_0"
    text := "test text"
    embedding := [0]
    metadata := ⟨"doc.md", "general", 0, 1, "2024-01-01T00:00:00.000Z"⟩ }

/-- A second concrete record. -/
def testRecord2 : Record :=
  { id := "doc.md_chunk_1"
    text := "more text"
    embedding := [0]
    metadata := ⟨"doc.md", "general", 1, 2, "2024-01-01T00:00:00.000Z"⟩ }

/-- The decimal digit characters of `n`, most significant first — the list
`Nat.toDigitsCore` produces when given enough fuel. -/
def decChars (n : ℕ) : List Char :=
  if _h : n < 10 then [Nat.digitChar n]
  else decChars (n / 10) ++ [Nat.digitChar (n % 10)]
  termination_by n
  decreasing_by exact Nat.div_lt_self (by omega) (by norm_num)

/-- The files the `handleProcessEmbeddings` loop actually processes: the
`.md` objects surviving the optional category filter. -/
def keptFiles (files : List (String × String))
    (categories : Option (List String)) : List (String × String) :=
  (files.filter fun f => jsEndsWith ".md" f.1).filter
    fun f => !skipFile categories f.1

/-- A concrete one-sentence FAQ document longer than the 50-character
minimum-chunk floor. -/
def faqSentence : String :=
  "Reset your password by going to Settings then Security then Change Password."

/-! ## Helper lemmas: sorting -/

theorem insertDesc_perm (x : Scored) (l : List Scored) :
    List.Perm (insertDesc x l) (x :: l) := by
  induction l with
  | nil => simp [insertDesc]
  | cons y ys ih =>
    by_cases h : x.similarity < y.similarity
    · simp only [insertDesc, if_pos h]
      exact (ih.cons y).trans (List.Perm.swap x y ys)
    · simp [insertDesc, if_neg h]

theorem sortDesc_perm (l : List Scored) : List.Perm (sortDesc l) l := by
  induction l with
  | nil => simp [sortDesc]
  | cons x xs ih =>
    exact (insertDesc_perm x (sortDesc xs)).trans (ih.cons x)

theorem insertDesc_sorted (x : Scored) {l : List Scored}
    (h : l.Pairwise simGE) : (insertDesc x l).Pairwise simGE := by
  induction l with
  | nil => simp [insertDesc, List.Pairwise]
  | cons y ys ih =>
    rcases List.pairwise_cons.mp h with ⟨hy, hys⟩
    by_cases hxy : x.similarity < y.similarity
    · simp only [insertDesc, if_pos hxy]
      refine List.pairwise_cons.mpr ⟨?_, ih hys⟩
      intro z hz
      rcases List.mem_cons.mp ((insertDesc_perm x ys).mem_iff.mp hz) with hz' | hz'
      · subst hz'; exact le_of_lt hxy
      · exact hy z hz'
    · simp only [insertDesc, if_neg hxy]
      refine List.pairwise_cons.mpr ⟨?_, h⟩
      intro z hz
      rcases List.mem_cons.mp hz with hz' | hz'
      · subst hz'; exact le_of_not_lt hxy
      · exact le_trans (hy z hz') (le_of_not_lt hxy)

theorem sortDesc_sorted (l : List Scored) : (sortDesc l).Pairwise simGE := by
  induction l with
  | nil => simp [sortDesc, List.Pairwise]
  | cons x xs ih => exact insertDesc_sorted x ih

theorem insertDesc_filter_eq (x : Scored) (l : List Scored) (s : ℝ) :
    (insertDesc x l).filter (fun r => decide (r.similarity = s)) =
      (x :: l).filter (fun r => decide (r.similarity = s)) := by
  induction l with
  | nil => rfl
  | cons y ys ih =>
    by_cases hxy : x.similarity < y.similarity
    · simp only [insertDesc, if_pos hxy]
      by_cases hx : x.similarity = s
      · have hy : ¬ y.similarity = s := by
          intro hy; rw [hx, hy] at hxy; exact lt_irrefl s hxy
        simp [List.filter_cons, hx, hy, ih]
      · simp [List.filter_cons, hx, ih]
    · simp [insertDesc, if_neg hxy]

theorem sortDesc_filter_eq (l : List Scored) (s : ℝ) :
    (sortDesc l).filter (fun r => decide (r.similarity = s)) =
      l.filter (fun r => decide (r.similarity = s)) := by
  induction l with
  | nil => rfl
  | cons x xs ih =>
    calc (insertDesc x (sortDesc xs)).filter (fun r => decide (r.similarity = s))
        = (x :: sortDesc xs).filter (fun r => decide (r.similarity = s)) :=
          insertDesc_filter_eq x (sortDesc xs) s
      _ = (x :: xs).filter (fun r => decide (r.similarity = s)) := by
          by_cases hx : x.similarity = s <;> simp [List.filter_cons, hx, ih]

theorem sortDesc_length (l : List Scored) : (sortDesc l).length = l.length :=
  (sortDesc_perm l).length_eq

/-! ## Helper lemmas: JS array slice -/

theorem jsSlice_length_le_of_nonneg (l : List α) (k : ℤ) (hk : 0 ≤ k) :
    (jsSlice l k).length ≤ k.toNat := by
  unfold jsSlice
  rw [if_neg (not_lt.mpr hk)]
  simp only [List.length_take]
  omega

theorem jsSlice_zero (l : List α) : jsSlice l 0 = [] := by
  simp [jsSlice]

theorem jsSlice_of_length_lt (l : List α) (k : ℤ) (hk : (l.length : ℤ) < k) :
    jsSlice l k = l := by
  unfold jsSlice
  rw [if_neg (not_lt.mpr (le_of_lt (lt_of_le_of_lt (Int.ofNat_nonneg _) hk)))]
  have h : l.length ≤ k.toNat := by omega
  rw [min_eq_right h, List.take_length]

theorem jsSlice_length_of_neg (l : List α) (k : ℤ) (hk : k < 0) :
    (jsSlice l k).length = l.length - k.natAbs := by
  unfold jsSlice
  rw [if_pos hk]
  simp only [List.length_take]
  omega

theorem jsSlice_initial (l : List α) (k : ℤ) : jsSlice l k <+: l := by
  unfold jsSlice
  exact List.take_prefix _ l

/-! ## Helper lemmas: cosine similarity arithmetic -/

theorem sumSq_nonneg (v : List ℚ) : 0 ≤ sumSq v := by
  induction v with
  | nil => simp [sumSq]
  | cons x xs ih =>
    simp only [sumSq, List.map_cons, List.sum_cons]
    exact add_nonneg (mul_self_nonneg x) ih

theorem dotProduct_self (v : List ℚ) : dotProduct v v = sumSq v := by
  induction v with
  | nil => rfl
  | cons x xs ih =>
    simp only [dotProduct, sumSq, List.zipWith_cons_cons, List.map_cons,
      List.sum_cons]
    simp only [dotProduct, sumSq] at ih
    rw [ih]

theorem sumSq_pos_of_mem_ne_zero {v : List ℚ} {x : ℚ} (hx : x ∈ v)
    (hne : x ≠ 0) : 0 < sumSq v := by
  induction v with
  | nil => cases hx
  | cons y ys ih =>
    simp only [sumSq, List.map_cons, List.sum_cons]
    rcases List.mem_cons.mp hx with h | h
    · subst h
      have h1 : 0 < x * x := mul_self_pos.mpr hne
      have h2 : 0 ≤ sumSq ys := sumSq_nonneg ys
      simp only [sumSq] at h2
      linarith
    · have h1 : 0 < sumSq ys := ih h
      have h2 : 0 ≤ y * y := mul_self_nonneg y
      simp only [sumSq] at h1
      linarith

theorem cauchy_schwarz_list (a b : List ℚ) :
    dotProduct a b ^ 2 ≤ sumSq a * sumSq b := by
  induction a generalizing b with
  | nil =>
    simp [dotProduct, sumSq]
  | cons x xs ih =>
    cases b with
    | nil =>
      simp [dotProduct, sumSq]
    | cons y ys =>
      have hA := sumSq_nonneg xs
      have hB := sumSq_nonneg ys
      have hih := ih ys
      simp only [dotProduct, sumSq, List.zipWith_cons_cons, List.map_cons,
        List.sum_cons] at hih hA hB ⊢
      set d := (List.zipWith (· * ·) xs ys).sum with hd
      set A := (xs.map fun v => v * v).sum with hA'
      set B := (ys.map fun v => v * v).sum with hB'
      rcases eq_or_lt_of_le hA with hA0 | hA0
      · have hd0 : d = 0 := by nlinarith [sq_nonneg d]
        rw [hd0, ← hA0]
        nlinarith [sq_nonneg x, sq_nonneg y, mul_nonneg (sq_nonneg x) hB]
      · have h7 : 0 ≤ (x ^ 2 + A) * (A * B - d ^ 2) :=
          mul_nonneg (by positivity) (by linarith)
        nlinarith [sq_nonneg (x * d - A * y), h7, hA0]

theorem cosineSimilarity_ok_cases (a b : List ℚ) (s : ℝ)
    (h : cosineSimilarity a b = .ok s) :
    (Real.sqrt (sumSq a) * Real.sqrt (sumSq b) = 0 ∧ s = 0) ∨
    (Real.sqrt (sumSq a) * Real.sqrt (sumSq b) ≠ 0 ∧
      s = (dotProduct a b : ℝ) / (Real.sqrt (sumSq a) * Real.sqrt (sumSq b))) := by
  by_cases hlen : a.length ≠ b.length
  · simp [cosineSimilarity, hlen] at h
  · by_cases hden : Real.sqrt (sumSq a) * Real.sqrt (sumSq b) = 0
    · left
      simp only [cosineSimilarity, hlen, if_false, hden, if_true,
        Except.ok.injEq] at h
      exact ⟨hden, h.symm⟩
    · right
      simp only [cosineSimilarity, hlen, if_false, hden, if_true,
        Except.ok.injEq] at h
      exact ⟨hden, h.symm⟩

theorem abs_dotProduct_le (a b : List ℚ) :
    |((dotProduct a b : ℚ) : ℝ)| ≤ Real.sqrt (sumSq a) * Real.sqrt (sumSq b) := by
  have h := cauchy_schwarz_list a b
  have hcast : ((dotProduct a b : ℚ) : ℝ) ^ 2 ≤ ((sumSq a : ℚ) : ℝ) * ((sumSq b : ℚ) : ℝ) := by
    exact_mod_cast h
  have hA : (0 : ℝ) ≤ ((sumSq a : ℚ) : ℝ) := by exact_mod_cast sumSq_nonneg a
  calc |((dotProduct a b : ℚ) : ℝ)|
      = Real.sqrt (((dotProduct a b : ℚ) : ℝ) ^ 2) := (Real.sqrt_sq_eq_abs _).symm
    _ ≤ Real.sqrt (((sumSq a : ℚ) : ℝ) * ((sumSq b : ℚ) : ℝ)) := Real.sqrt_le_sqrt hcast
    _ = Real.sqrt (sumSq a) * Real.sqrt (sumSq b) := Real.sqrt_mul hA _

theorem cosineSimilarity_eq_ok (a b : List ℚ) (hlen : a.length = b.length) :
    cosineSimilarity a b =
      if Real.sqrt (sumSq a) * Real.sqrt (sumSq b) = 0 then .ok 0
      else .ok ((dotProduct a b : ℝ) / (Real.sqrt (sumSq a) * Real.sqrt (sumSq b))) := by
  unfold cosineSimilarity
  rw [if_neg (by simp [hlen])]

/-- Claim C4: for equal-length vectors the cosine similarity value is in
`[-1, 1]`; the similarity of a non-zero vector with itself is `1`; and a
zero-norm input yields the value `0` (an `ok` result, not a failure). -/
theorem cosineSimilarity_bounds (a b : List ℚ) (hlen : a.length = b.length) :
    (∀ s : ℝ, cosineSimilarity a b = .ok s → -1 ≤ s ∧ s ≤ 1) ∧
    ((∃ x ∈ a, x ≠ 0) → cosineSimilarity a a = .ok 1) ∧
    (sumSq a = 0 ∨ sumSq b = 0 → cosineSimilarity a b = .ok 0) := by
  refine ⟨?_, ?_, ?_⟩
  · intro s h
    rcases cosineSimilarity_ok_cases a b s h with ⟨_, rfl⟩ | ⟨hden, rfl⟩
    · constructor <;> norm_num
    · have hpos : 0 < Real.sqrt (sumSq a) * Real.sqrt (sumSq b) :=
        lt_of_le_of_ne (mul_nonneg (Real.sqrt_nonneg _) (Real.sqrt_nonneg _))
          (Ne.symm hden)
    
      have habs : |((dotProduct a b : ℚ) : ℝ) / (Real.sqrt (sumSq a) * Real.sqrt (sumSq b))| ≤ 1 := by
        rw [abs_div, abs_of_pos hpos]
        exact (div_le_one hpos).mpr ((abs_dotProduct_le a b))
      exact abs_le.mp habs
  · rintro ⟨x, hx, hxne⟩
    have hA : (0 : ℚ) < sumSq a := sumSq_pos_of_mem_ne_zero hx hxne
    have hAR : (0 : ℝ) < ((sumSq a : ℚ) : ℝ) := by exact_mod_cast hA
    have hsqrt : Real.sqrt (sumSq a) * Real.sqrt (sumSq a) = ((sumSq a : ℚ) : ℝ) :=
      Real.mul_self_sqrt (le_of_lt hAR)
    have hden : Real.sqrt (sumSq a) * Real.sqrt (sumSq a) ≠ 0 := by
      rw [hsqrt]; exact ne_of_gt hAR
    rw [cosineSimilarity_eq_ok a a rfl, if_neg hden, dotProduct_self, hsqrt,
      div_self (ne_of_gt hAR)]
  · intro h
    have hden : Real.sqrt (sumSq a) * Real.sqrt (sumSq b) = 0 := by
      rcases h with h | h <;> rw [h] <;> simp [Real.sqrt_zero]
    rw [cosineSimilarity_eq_ok a b hlen, if_pos hden]

/-- Witness for C4 at the concrete non-zero vector `[3, 4]`. -/
theorem cosineSimilarity_bounds_witness :
    ([3, 4] : List ℚ).length = ([3, 4] : List ℚ).length ∧
    (∃ x ∈ ([3, 4] : List ℚ), x ≠ 0) ∧
    cosineSimilarity [3, 4] [3, 4] = .ok 1 :=
  ⟨rfl, ⟨3, by decide, by decide⟩,
    (cosineSimilarity_bounds [3, 4] [3, 4] rfl).2.1 ⟨3, by decide, by decide⟩⟩

/-- Claim C6: unequal-length vectors make `cosineSimilarity` throw the
`DimensionMismatch` error — it never returns a numeric score. -/
theorem cosineSimilarity_dimension_mismatch (a b : List ℚ)
    (h : a.length ≠ b.length) :
    cosineSimilarity a b = .error dimensionMismatchError := by
  simp [cosineSimilarity, h]

/-- Witness for C6 at the concrete mismatched vectors `[1]`, `[1, 2]`. -/
theorem cosineSimilarity_dimension_mismatch_witness :
    ([1] : List ℚ).length ≠ ([1, 2] : List ℚ).length ∧
    cosineSimilarity [1] [1, 2] = .error dimensionMismatchError :=
  ⟨by decide, cosineSimilarity_dimension_mismatch [1] [1, 2] (by decide)⟩

/-- Claim C2: while a cached snapshot is younger than the TTL,
`loadFaqEmbeddings` returns it unchanged with no refetch; once the TTL has
elapsed, the single call performs the one refetch, replaces the cached
snapshot with the fetched one, and resets the timestamp to `now`. -/
theorem loadFaqEmbeddings_cache_ttl (st : CacheState) (now : ℕ)
    (fetch : Except JsError (Option (List Record))) :
    (∀ cached, st.embeddingsCache = some cached →
      now - st.cacheTimestamp < CACHE_DURATION →
      loadFaqEmbeddings st now fetch = (.ok (some cached), st, false)) ∧
    (CACHE_DURATION ≤ now - st.cacheTimestamp →
      ∀ parsed, fetch = .ok parsed →
      loadFaqEmbeddings st now fetch = (.ok parsed, ⟨parsed, now⟩, true)) := by
  constructor
  · intro cached hc hf
    simp [loadFaqEmbeddings, hc, hf]
  · intro h parsed hp
    subst hp
    cases hcc : st.embeddingsCache with
    | none => simp [loadFaqEmbeddings, hcc]
    | some c => simp [loadFaqEmbeddings, hcc, not_lt.mpr h]

/-- Witness for C2: a fresh cache (1 ms old) is served without refetching;
an expired cache (exactly TTL old) triggers the refetch and reset. -/
theorem loadFaqEmbeddings_cache_ttl_witness :
    ((⟨some [], 0⟩ : CacheState).embeddingsCache = some [] ∧
      1 - 0 < CACHE_DURATION ∧
      loadFaqEmbeddings ⟨some [], 0⟩ 1 (.ok none) =
        (.ok (some []), ⟨some [], 0⟩, false)) ∧
    (CACHE_DURATION ≤ 3600000 - 0 ∧
      loadFaqEmbeddings ⟨some [], 0⟩ 3600000 (.ok (some [])) =
        (.ok (some []), ⟨some [], 3600000⟩, true)) := by
  refine ⟨⟨rfl, by decide, ?_⟩, by decide, ?_⟩
  · exact (loadFaqEmbeddings_cache_ttl ⟨some [], 0⟩ 1 (.ok none)).1 [] rfl (by decide)
  · exact (loadFaqEmbeddings_cache_ttl ⟨some [], 0⟩ 3600000 (.ok (some []))).2
      (by decide) (some []) rfl

/-- Claim C7: a non-preflight request whose question is missing, empty or
whitespace-only is rejected with the 400 "Missing required parameter"
response, with no external call made and the cache untouched. -/
theorem handler_malformed_rejected (event : LambdaEvent) (env : ExternalEnv)
    (st : CacheState) (now : ℕ)
    (hm : event.httpMethod ≠ "OPTIONS")
    (hq : event.question = none ∨
      ∃ q, event.question = some q ∧ (jsTrim q).length = 0) :
    handler event env st now =
      (⟨400, .errorOnly "Missing required parameter: question"⟩, st, []) := by
  rcases hq with hq | ⟨q, hq, ht⟩
  · simp [handler, hm, hq]
  · simp [handler, hm, hq, ht]

/-- Witness for C7 at a concrete whitespace-only question. -/
theorem handler_malformed_rejected_witness :
    (("POST" : String) ≠ "OPTIONS" ∧ (jsTrim "   ").length = 0) ∧
    handler ⟨"POST", some "   "⟩ ⟨.ok none, .ok [], .ok ""⟩ ⟨none, 0⟩ 0 =
      (⟨400, .errorOnly "Missing required parameter: question"⟩, ⟨none, 0⟩, []) :=
  ⟨⟨by decide, by decide⟩,
    handler_malformed_rejected ⟨"POST", some "   "⟩ ⟨.ok none, .ok [], .ok ""⟩
      ⟨none, 0⟩ 0 (by decide) (.inr ⟨"   ", rfl, by decide⟩)⟩

/-- Claim C1 counterexample: with a cold cache and durable storage
reporting object-not-found (`NoSuchKey`), the handler's response is the
generic 500 "Internal server error" — byte-for-byte the same response any
other storage failure with the same message produces (only `error.message`
survives; the `NoSuchKey` marker is dropped), not a distinguishable
UninitializedKnowledgeBase condition. -/
theorem noSuchKey_generic_500 :
    (handler ⟨"POST", some "hi"⟩ ⟨.error noSuchKeyError, .ok [], .ok ""⟩
        ⟨none, 0⟩ 0).1 =
      ⟨500, .errorMessage "Internal server error" noSuchKeyError.message⟩ ∧
    (handler ⟨"POST", some "hi"⟩ ⟨.error noSuchKeyError, .ok [], .ok ""⟩
        ⟨none, 0⟩ 0).1 =
      (handler ⟨"POST", some "hi"⟩
        ⟨.error ⟨"InternalError", noSuchKeyError.message⟩, .ok [], .ok ""⟩
        ⟨none, 0⟩ 0).1 :=
  ⟨rfl, rfl⟩

/-- Claim C1 amended: when the durable-storage read throws, the handler
returns a generic 500 carrying only the error's message (so object-not-found
is not surfaced as a distinct condition); the distinguishable 503
"knowledge base not initialized" response is produced only when the
embeddings object loads and parses as `null` or as an empty collection. -/
theorem load_failure_surfacing (q : String) (env : ExternalEnv)
    (st : CacheState) (now : ℕ)
    (hq : (jsTrim q).length ≠ 0)
    (hcold : st.embeddingsCache = none) :
    (∀ e : JsError, env.fetchEmbeddings = .error e →
      (handler ⟨"POST", some q⟩ env st now).1 =
        ⟨500, .errorMessage "Internal server error" e.message⟩) ∧
    (env.fetchEmbeddings = .ok none ∨ env.fetchEmbeddings = .ok (some []) →
      (handler ⟨"POST", some q⟩ env st now).1 =
        ⟨503, .errorOnly
          "FAQ knowledge base not initialized. Please run document processor first."⟩) := by
  constructor
  · intro e he
    simp [handler, hq, loadFaqEmbeddings, hcold, he]
  · intro h
    rcases h with h | h <;> simp [handler, hq, loadFaqEmbeddings, hcold, h]

/-- Witness for the amended C1 at concrete cold-cache requests. -/
theorem load_failure_surfacing_witness :
    ((jsTrim "hi").length ≠ 0 ∧ (⟨none, 0⟩ : CacheState).embeddingsCache = none) ∧
    (handler ⟨"POST", some "hi"⟩ ⟨.error noSuchKeyError, .ok [], .ok ""⟩
        ⟨none, 0⟩ 0).1 =
      ⟨500, .errorMessage "Internal server error" noSuchKeyError.message⟩ ∧
    (handler ⟨"POST", some "hi"⟩ ⟨.ok (some []), .ok [], .ok ""⟩ ⟨none, 0⟩ 0).1 =
      ⟨503, .errorOnly
        "FAQ knowledge base not initialized. Please run document processor first."⟩ :=
  ⟨⟨by decide, rfl⟩,
    (load_failure_surfacing "hi" ⟨.error noSuchKeyError, .ok [], .ok ""⟩
      ⟨none, 0⟩ 0 (by decide) rfl).1 noSuchKeyError rfl,
    (load_failure_surfacing "hi" ⟨.ok (some []), .ok [], .ok ""⟩
      ⟨none, 0⟩ 0 (by decide) rfl).2 (.inr rfl)⟩

/-! ## Helper lemmas: scoring -/

theorem cosineSimilarity_isOk (a b : List ℚ) (hlen : a.length = b.length) :
    ∃ s, cosineSimilarity a b = .ok s := by
  rw [cosineSimilarity_eq_ok a b hlen]
  by_cases h : Real.sqrt (sumSq a) * Real.sqrt (sumSq b) = 0
  · exact ⟨0, if_pos h⟩
  · exact ⟨_, if_neg h⟩

theorem scoreAll_records (qv : List ℚ) (store : List Record)
    (scored : List Scored) (h : scoreAll qv store = .ok scored) :
    scored.map Scored.record = store := by
  induction store generalizing scored with
  | nil =>
    simp only [scoreAll, Except.ok.injEq] at h
    subst h; rfl
  | cons r rs ih =>
    cases hc : cosineSimilarity qv r.embedding with
    | error e => simp [scoreAll, hc] at h
    | ok s =>
      cases ht : scoreAll qv rs with
      | error e => simp [scoreAll, hc, ht] at h
      | ok tail =>
        simp only [scoreAll, hc, ht, Except.ok.injEq] at h
        subst h
        simp [ih tail ht]

theorem scoreAll_isOk (qv : List ℚ) (store : List Record)
    (hdim : ∀ r ∈ store, r.embedding.length = qv.length) :
    ∃ scored, scoreAll qv store = .ok scored := by
  induction store with
  | nil => exact ⟨[], rfl⟩
  | cons r rs ih =>
    obtain ⟨tail, ht⟩ := ih fun x hx => hdim x (List.mem_cons_of_mem r hx)
    obtain ⟨s, hs⟩ := cosineSimilarity_isOk qv r.embedding
      (hdim r (List.mem_cons_self r rs)).symm
    exact ⟨⟨r, s⟩ :: tail, by simp [scoreAll, hs, ht]⟩

/-- Claim C3: a retrieval with `k ≥ 0` over a dimension-consistent store
returns at most `k` results, sorted by similarity descending, ties kept in
original store order (every equal-similarity class of the output is a
prefix of that class in the scored store order). -/
theorem findRelevantChunks_sorted_stable (qv : List ℚ) (store : List Record)
    (k : ℤ) (hk : 0 ≤ k)
    (hdim : ∀ r ∈ store, r.embedding.length = qv.length) :
    ∃ scored l, scoreAll qv store = .ok scored ∧
      findRelevantChunks qv store k = .ok l ∧
      l.length ≤ k.toNat ∧
      l.Pairwise simGE ∧
      ∀ s : ℝ, l.filter (fun r => decide (r.similarity = s)) <+:
        scored.filter (fun r => decide (r.similarity = s)) := by
  obtain ⟨scored, hs⟩ := scoreAll_isOk qv store hdim
  refine ⟨scored, jsSlice (sortDesc scored) k, hs, ?_, ?_, ?_, ?_⟩
  · simp [findRelevantChunks, hs]
  · exact jsSlice_length_le_of_nonneg _ k hk
  · exact List.Pairwise.sublist (jsSlice_initial (sortDesc scored) k).sublist
      (sortDesc_sorted scored)
  · intro s
    have h1 : jsSlice (sortDesc scored) k <+: sortDesc scored :=
      jsSlice_initial _ k
    have h2 := h1.filter (fun r => decide (r.similarity = s))
    rw [sortDesc_filter_eq] at h2
    exact h2

theorem cosineSimilarity_zero_single :
    cosineSimilarity [0] [(0 : ℚ)] = .ok 0 := by
  have hden : Real.sqrt (sumSq [(0 : ℚ)]) * Real.sqrt (sumSq [(0 : ℚ)]) = 0 := by
    have h0 : sumSq [(0 : ℚ)] = 0 := by simp [sumSq]
    rw [h0]
    push_cast
    rw [Real.sqrt_zero, mul_zero]
  rw [cosineSimilarity_eq_ok [0] [0] rfl, if_pos hden]

theorem scoreAll_testRecord :
    scoreAll [0] [testRecord] = .ok [⟨testRecord, 0⟩] := by
  have hc : cosineSimilarity [0] testRecord.embedding = .ok 0 :=
    cosineSimilarity_zero_single
  simp [scoreAll, hc]

/-- Witness for C3 on the concrete one-record store. -/
theorem findRelevantChunks_sorted_stable_witness :
    ((0 : ℤ) ≤ 3 ∧
      ∀ r ∈ [testRecord], r.embedding.length = ([0] : List ℚ).length) ∧
    (∃ scored l, scoreAll [0] [testRecord] = .ok scored ∧
      findRelevantChunks [0] [testRecord] 3 = .ok l ∧
      l.length ≤ (3 : ℤ).toNat ∧
      l.Pairwise simGE ∧
      ∀ s : ℝ, l.filter (fun r => decide (r.similarity = s)) <+:
        scored.filter (fun r => decide (r.similarity = s))) :=
  ⟨⟨by decide, by decide⟩,
    findRelevantChunks_sorted_stable [0] [testRecord] 3 (by decide) (by decide)⟩

theorem scoreAll_two_zero :
    scoreAll [0] [testRecord, testRecord2] =
      .ok [⟨testRecord, 0⟩, ⟨testRecord2, 0⟩] := by
  have h1 : cosineSimilarity [0] testRecord.embedding = .ok 0 :=
    cosineSimilarity_zero_single
  have h2 : cosineSimilarity [0] testRecord2.embedding = .ok 0 :=
    cosineSimilarity_zero_single
  simp [scoreAll, h1, h2]

theorem sortDesc_two_zero :
    sortDesc [⟨testRecord, 0⟩, ⟨testRecord2, 0⟩] =
      [⟨testRecord, 0⟩, ⟨testRecord2, 0⟩] := by
  simp [sortDesc, insertDesc]

/-- Claim C5 counterexample: `slice(0, topK)` follows the ECMAScript
negative-end convention, so `k = -1` on a two-record store returns one
record — not the empty sequence the claim requires for every `k ≤ 0`. -/
theorem findRelevantChunks_neg_k_nonempty :
    findRelevantChunks [0] [testRecord, testRecord2] (-1) =
      .ok [⟨testRecord, 0⟩] ∧
    (-1 : ℤ) ≤ 0 ∧ ([⟨testRecord, 0⟩] : List Scored).length = 1 := by
  refine ⟨?_, by decide, rfl⟩
  rw [findRelevantChunks, scoreAll_two_zero]
  show Except.ok (jsSlice (sortDesc [⟨testRecord, 0⟩, ⟨testRecord2, 0⟩]) (-1)) =
    Except.ok [⟨testRecord, 0⟩]
  rw [sortDesc_two_zero]
  norm_num [jsSlice]

/-- Claim C5 amended: `k = 0` returns the empty sequence; a negative `k`
returns the sorted records with the last `|k|` dropped (ECMAScript
`slice(0, k)` semantics) — empty only when `|k| ≥` record count; and `k`
greater than the record count returns all records. -/
theorem findRelevantChunks_k_edges (qv : List ℚ) (store : List Record)
    (k : ℤ) (hdim : ∀ r ∈ store, r.embedding.length = qv.length) :
    ∃ scored l, scoreAll qv store = .ok scored ∧
      findRelevantChunks qv store k = .ok l ∧
      (k = 0 → l = []) ∧
      ((store.length : ℤ) < k → List.Perm (l.map Scored.record) store) ∧
      (k < 0 → l.length = store.length - k.natAbs) := by
  obtain ⟨scored, hs⟩ := scoreAll_isOk qv store hdim
  have hrec := scoreAll_records qv store scored hs
  have hlen : scored.length = store.length := by
    rw [← hrec, List.length_map]
  have hsortlen : (sortDesc scored).length = store.length := by
    rw [sortDesc_length, hlen]
  refine ⟨scored, jsSlice (sortDesc scored) k, hs,
    by simp [findRelevantChunks, hs], ?_, ?_, ?_⟩
  · rintro rfl
    exact jsSlice_zero _
  · intro hk
    have he : jsSlice (sortDesc scored) k = sortDesc scored :=
      jsSlice_of_length_lt _ k (by rw [hsortlen]; exact hk)
    rw [he, ← hrec]
    exact (sortDesc_perm scored).map Scored.record
  · intro hk
    rw [jsSlice_length_of_neg _ k hk, hsortlen]

/-- Witness for the amended C5 on the concrete one-record store with
`k = 2` (greater than the record count). -/
theorem findRelevantChunks_k_edges_witness :
    (∀ r ∈ [testRecord], r.embedding.length = ([0] : List ℚ).length) ∧
    (∃ scored l, scoreAll [0] [testRecord] = .ok scored ∧
      findRelevantChunks [0] [testRecord] 2 = .ok l ∧
      ((2 : ℤ) = 0 → l = []) ∧
      ((([testRecord] : List Record).length : ℤ) < 2 →
        List.Perm (l.map Scored.record) [testRecord]) ∧
      ((2 : ℤ) < 0 → l.length = ([testRecord] : List Record).length - (2 : ℤ).natAbs)) :=
  ⟨by decide, findRelevantChunks_k_edges [0] [testRecord] 2 (by decide)⟩

/-- Claim C10: retrieval is read-only with respect to the snapshot —
scoring builds fresh scored copies whose underlying records are exactly the
snapshot's records in their original order, and every returned result's
record is, field for field, an element of the snapshot; the snapshot list
itself is never modified. -/
theorem retrieval_readonly (qv : List ℚ) (store : List Record) (k : ℤ) :
    (∀ scored, scoreAll qv store = .ok scored →
      scored.map Scored.record = store) ∧
    (∀ l, findRelevantChunks qv store k = .ok l →
      ∀ sc ∈ l, sc.record ∈ store) := by
  refine ⟨fun scored h => scoreAll_records qv store scored h, ?_⟩
  intro l h sc hsc
  cases hsa : scoreAll qv store with
  | error e => simp [findRelevantChunks, hsa] at h
  | ok scored =>
    simp only [findRelevantChunks, hsa, Except.ok.injEq] at h
    subst h
    have h1 : sc ∈ sortDesc scored :=
      (jsSlice_initial (sortDesc scored) k).sublist.subset hsc
    have h2 : sc ∈ scored := (sortDesc_perm scored).mem_iff.mp h1
    rw [← scoreAll_records qv store scored hsa]
    exact List.mem_map_of_mem Scored.record h2

/-- Witness for C10 on the concrete one-record store. -/
theorem retrieval_readonly_witness :
    (findRelevantChunks [0] [testRecord] 1 = .ok [⟨testRecord, 0⟩] ∧
      (⟨testRecord, 0⟩ : Scored) ∈ ([⟨testRecord, 0⟩] : List Scored)) ∧
    (Scored.mk testRecord 0).record ∈ [testRecord] := by
  have h1 : findRelevantChunks [0] [testRecord] 1 = .ok [⟨testRecord, 0⟩] := by
    rw [findRelevantChunks, scoreAll_testRecord]
    norm_num [sortDesc, insertDesc, jsSlice]
  exact ⟨⟨h1, List.mem_singleton.mpr rfl⟩,
    (retrieval_readonly [0] [testRecord] 1).2 [⟨testRecord, 0⟩] h1
      ⟨testRecord, 0⟩ (List.mem_singleton.mpr rfl)⟩

/-! ## Chunker termination -/

theorem chunkLoopFuel_complete (chunkSize overlap : ℕ) (sents : List String) :
    ∀ (fuel : ℕ) (cur : String) (chunks : List String),
      sents.length ≤ fuel →
      chunkLoopFuel chunkSize overlap fuel sents cur chunks =
        some (chunkLoop chunkSize overlap sents cur chunks) := by
  induction sents with
  | nil =>
    intro fuel cur chunks _
    cases fuel <;> rfl
  | cons s rest ih =>
    intro fuel cur chunks hle
    cases fuel with
    | zero => simp at hle
    | succ f =>
      simp only [List.length_cons, Nat.succ_le_succ_iff] at hle
      by_cases hc : chunkSize < (cur ++ " " ++ s).length ∧ 0 < cur.length
      · simp only [chunkLoopFuel, chunkLoop, if_pos hc]
        exact ih f _ _ hle
      · simp only [chunkLoopFuel, chunkLoop, if_neg hc]
        exact ih f _ _ hle

/-- Claim C9: for every content string and every configuration — including
the misconfigured `overlap ≥ chunkSize` — the `chunkDocument` loop
terminates, completing in exactly one iteration per sentence (a fuel budget
equal to the sentence count always suffices). -/
theorem chunkDocument_terminates (content : String) (chunkSize overlap : ℕ) :
    chunkLoopFuel chunkSize overlap (splitSents content).length
      (splitSents content) "" [] =
      some (chunkLoop chunkSize overlap (splitSents content) "" []) :=
  chunkLoopFuel_complete chunkSize overlap (splitSents content)
    (splitSents content).length "" [] (le_refl _)

/-! ## Decimal rendering (`Nat.repr`, used by the template literal
`filename + "_chunk_" + i`) -/

theorem toDigitsCore_eq_decChars :
    ∀ (fuel n : ℕ) (ds : List Char), n < fuel →
      Nat.toDigitsCore 10 fuel n ds = decChars n ++ ds := by
  intro fuel
  induction fuel with
  | zero => intro n ds h; omega
  | succ f ih =>
    intro n ds h
    show (if n / 10 = 0 then Nat.digitChar (n % 10) :: ds
      else Nat.toDigitsCore 10 f (n / 10) (Nat.digitChar (n % 10) :: ds)) =
      decChars n ++ ds
    by_cases h10 : n / 10 = 0
    · have hn : n < 10 := by omega
      rw [if_pos h10, decChars, dif_pos hn, Nat.mod_eq_of_lt hn]
      rfl
    · have hge : ¬ n < 10 := by omega
      have hlt : n / 10 < f := by
        have := Nat.div_lt_self (show 0 < n by omega) (show 1 < 10 by norm_num)
        omega
      rw [if_neg h10, ih (n / 10) _ hlt]
      conv_rhs => rw [decChars, dif_neg hge]
      rw [List.append_assoc, List.singleton_append]

theorem repr_data_eq_decChars (n : ℕ) : (Nat.repr n).data = decChars n := by
  show (List.asString (Nat.toDigitsCore 10 (n + 1) n [])).data = decChars n
  rw [toDigitsCore_eq_decChars (n + 1) n [] (Nat.lt_succ_self n)]
  simp [List.asString]

theorem digitChar_isDigit (n : ℕ) (h : n < 10) :
    (Nat.digitChar n).isDigit = true := by
  interval_cases n <;> decide

theorem digitChar_sub_48 (n : ℕ) (h : n < 10) :
    (Nat.digitChar n).toNat - 48 = n := by
  interval_cases n <;> decide

theorem decChars_all_digit (n : ℕ) : ∀ c ∈ decChars n, c.isDigit = true := by
  induction n using Nat.strong_induction_on with
  | _ n ih =>
    by_cases h : n < 10
    · rw [decChars, dif_pos h]
      intro c hc
      rw [List.mem_singleton] at hc
      subst hc
      exact digitChar_isDigit n h
    · rw [decChars, dif_neg h]
      intro c hc
      rcases List.mem_append.mp hc with hc | hc
      · exact ih (n / 10) (Nat.div_lt_self (by omega) (by norm_num)) c hc
      · rw [List.mem_singleton] at hc
        subst hc
        exact digitChar_isDigit (n % 10) (Nat.mod_lt n (by norm_num))

theorem decChars_foldl_val (n : ℕ) :
    ∀ a : ℕ,
      (decChars n).foldl (fun acc c => 10 * acc + (c.toNat - 48)) a =
        a * 10 ^ (decChars n).length + n := by
  induction n using Nat.strong_induction_on with
  | _ n ih =>
    intro a
    by_cases h : n < 10
    · rw [decChars, dif_pos h]
      show 10 * a + ((Nat.digitChar n).toNat - 48) = a * 10 ^ 1 + n
      rw [digitChar_sub_48 n h]
      ring
    · rw [decChars, dif_neg h, List.foldl_append,
        ih (n / 10) (Nat.div_lt_self (by omega) (by norm_num)) a]
      simp only [List.foldl_cons, List.foldl_nil, List.length_append,
        List.length_singleton]
      rw [digitChar_sub_48 (n % 10) (Nat.mod_lt n (by norm_num)), pow_succ]
      have key : 10 * (n / 10) + n % 10 = n := by omega
      calc 10 * (a * 10 ^ (decChars (n / 10)).length + n / 10) + n % 10
          = a * (10 ^ (decChars (n / 10)).length * 10) +
              (10 * (n / 10) + n % 10) := by ring
        _ = a * (10 ^ (decChars (n / 10)).length * 10) + n := by rw [key]

theorem decChars_injective {m n : ℕ} (h : decChars m = decChars n) : m = n := by
  have hm := decChars_foldl_val m 0
  have hn := decChars_foldl_val n 0
  rw [h] at hm
  rw [hm] at hn
  omega

/-! ## Cancellation of the `<filename>_chunk_<index>` id scheme -/

theorem digit_prefix_cancel (u : Char) (hu : u.isDigit = false) :
    ∀ (as bs t1 t2 : List Char),
      (∀ c ∈ as, c.isDigit = true) → (∀ c ∈ bs, c.isDigit = true) →
      as ++ u :: t1 = bs ++ u :: t2 → as = bs ∧ t1 = t2 := by
  intro as
  induction as with
  | nil =>
    intro bs t1 t2 _ hbs h
    cases bs with
    | nil => simpa using h
    | cons b bs' =>
      exfalso
      simp only [List.nil_append, List.cons_append, List.cons.injEq] at h
      have hb : b.isDigit = true := hbs b (List.mem_cons_self b bs')
      rw [← h.1] at hb
      rw [hu] at hb
      cases hb
  | cons a as' ih =>
    intro bs t1 t2 has hbs h
    cases bs with
    | nil =>
      exfalso
      simp only [List.nil_append, List.cons_append, List.cons.injEq] at h
      have ha : a.isDigit = true := has a (List.mem_cons_self a as')
      rw [h.1] at ha
      rw [hu] at ha
      cases ha
    | cons b bs' =>
      simp only [List.cons_append, List.cons.injEq] at h
      obtain ⟨rfl, h2⟩ := h
      obtain ⟨he, ht⟩ := ih bs' t1 t2
        (fun c hc => has c (List.mem_cons_of_mem _ hc))
        (fun c hc => hbs c (List.mem_cons_of_mem _ hc)) h2
      exact ⟨by rw [he], ht⟩

theorem digit_suffix_cancel (u : Char) (hu : u.isDigit = false)
    (xs ys d1 d2 : List Char)
    (hd1 : ∀ c ∈ d1, c.isDigit = true) (hd2 : ∀ c ∈ d2, c.isDigit = true)
    (h : xs ++ u :: d1 = ys ++ u :: d2) : xs = ys ∧ d1 = d2 := by
  have hrev : d1.reverse ++ u :: xs.reverse = d2.reverse ++ u :: ys.reverse := by
    have := congrArg List.reverse h
    simpa [List.reverse_append] using this
  obtain ⟨hd, ht⟩ := digit_prefix_cancel u hu d1.reverse d2.reverse
    xs.reverse ys.reverse
    (fun c hc => hd1 c (List.mem_reverse.mp hc))
    (fun c hc => hd2 c (List.mem_reverse.mp hc)) hrev
  constructor
  · rw [← List.reverse_reverse xs, ht, List.reverse_reverse]
  · rw [← List.reverse_reverse d1, hd, List.reverse_reverse]

theorem string_data_append (a b : String) : (a ++ b).data = a.data ++ b.data := by
  cases a; cases b; rfl

theorem string_eq_of_data {a b : String} (h : a.data = b.data) : a = b := by
  cases a
  cases b
  simp only at h
  rw [h]

/-- Injectivity of the record id scheme `<filename>_chunk_<index>`. -/
theorem chunkId_inj (f1 f2 : String) (i1 i2 : ℕ)
    (h : f1 ++ "_chunk_" ++ Nat.repr i1 = f2 ++ "_chunk_" ++ Nat.repr i2) :
    f1 = f2 ∧ i1 = i2 := by
  have hdata : (f1.data ++ "_chunk".data) ++ '_' :: (Nat.repr i1).data =
      (f2.data ++ "_chunk".data) ++ '_' :: (Nat.repr i2).data := by
    have hd := congrArg String.data h
    rw [string_data_append, string_data_append, string_data_append,
      string_data_append] at hd
    simpa [List.append_assoc] using hd
  obtain ⟨hf, hi⟩ := digit_suffix_cancel '_' (by decide)
    (f1.data ++ "_chunk".data) (f2.data ++ "_chunk".data)
    (Nat.repr i1).data (Nat.repr i2).data
    (by rw [repr_data_eq_decChars]; exact decChars_all_digit i1)
    (by rw [repr_data_eq_decChars]; exact decChars_all_digit i2)
    hdata
  refine ⟨string_eq_of_data (List.append_cancel_right hf), ?_⟩
  rw [repr_data_eq_decChars, repr_data_eq_decChars] at hi
  exact decChars_injective hi

/-! ## Ingestion id uniqueness -/

theorem foldl_skip_append_eq_flatten (p : String × String → Bool)
    (g : String × String → List Record) (l : List (String × String)) :
    ∀ acc : List Record,
      l.foldl (fun acc f => if p f then acc else acc ++ g f) acc =
        acc ++ ((l.filter fun f => !p f).map g).flatten := by
  induction l with
  | nil => intro acc; simp
  | cons x xs ih =>
    intro acc
    by_cases h : p x
    · simp [List.foldl_cons, h, ih]
    · simp [List.foldl_cons, h, ih, List.append_assoc]

theorem handleProcessEmbeddings_eq_flatten (files : List (String × String))
    (categories : Option (List String)) (embed : String → List ℚ)
    (nowIso : String) :
    handleProcessEmbeddings files categories embed nowIso =
      ((keptFiles files categories).map
        fun f => processFile embed nowIso f.1 f.2).flatten := by
  unfold handleProcessEmbeddings keptFiles
  rw [foldl_skip_append_eq_flatten (fun f => skipFile categories f.1)
    (fun f => processFile embed nowIso f.1 f.2)]
  simp

theorem processFile_ids (embed : String → List ℚ) (nowIso key content : String) :
    (processFile embed nowIso key content).map Record.id =
      (List.range (chunkDocument content CHUNK_SIZE CHUNK_OVERLAP).length).map
        fun i => jsFileName key ++ "_chunk_" ++ Nat.repr i := by
  unfold processFile
  rw [List.map_map]
  have h : (Record.id ∘ fun ic : ℕ × String =>
      { id := jsFileName key ++ "_chunk_" ++ Nat.repr ic.1
        text := ic.2
        embedding := embed ic.2
        metadata :=
          { source := jsFileName key
            category := jsCategoryOf key
            chunkIndex := ic.1
            totalChunks := (chunkDocument content CHUNK_SIZE CHUNK_OVERLAP).length
            lastUpdated := nowIso } : Record }) =
      (fun i => jsFileName key ++ "_chunk_" ++ Nat.repr i) ∘ Prod.fst := rfl
  rw [h, ← List.map_map, List.enum_map_fst]

/-- Claim C8 amended: record ids in one ingestion run are pairwise distinct
provided the processed documents' filenames (final path components) are
pairwise distinct; two documents sharing a filename under different
category prefixes produce colliding ids. -/
theorem ingestion_ids_nodup (files : List (String × String))
    (categories : Option (List String)) (embed : String → List ℚ)
    (nowIso : String)
    (hnames : ((keptFiles files categories).map fun f => jsFileName f.1).Nodup) :
    ((handleProcessEmbeddings files categories embed nowIso).map
      Record.id).Nodup := by
  rw [handleProcessEmbeddings_eq_flatten, List.map_flatten, List.map_map]
  rw [List.nodup_flatten]
  have hpw : (keptFiles files categories).Pairwise
      (fun f g => jsFileName f.1 ≠ jsFileName g.1) := by
    have := hnames
    rw [List.Nodup, List.pairwise_map] at this
    exact this
  constructor
  · intro l hl
    rcases List.mem_map.mp hl with ⟨f, _, rfl⟩
    show ((processFile embed nowIso f.1 f.2).map Record.id).Nodup
    rw [processFile_ids]
    refine List.Nodup.map ?_ (List.nodup_range _)
    intro i j hij
    exact (chunkId_inj (jsFileName f.1) (jsFileName f.1) i j hij).2
  · rw [List.pairwise_map]
    refine hpw.imp ?_
    intro f g hfg
    intro x hxf hxg
    show False
    rw [Function.comp, processFile_ids] at hxf hxg
    rcases List.mem_map.mp hxf with ⟨i, _, hif⟩
    rcases List.mem_map.mp hxg with ⟨j, _, hjg⟩
    rw [← hjg] at hif
    exact hfg (chunkId_inj (jsFileName f.1) (jsFileName g.1) i j hif).1

/-- Claim C8 counterexample: ingesting two documents that share the
filename `x.md` under different category prefixes produces the id
`x.md_chunk_0` twice — the ids of one snapshot are not pairwise distinct. -/
theorem ingestion_duplicate_ids :
    ((handleProcessEmbeddings
        [("content/gold/x.md", faqSentence), ("content/crypto/x.md", faqSentence)]
        none (fun _ => [1]) "2024-01-01T00:00:00.000Z").map Record.id) =
      ["x.md_chunk_0", "x.md_chunk_0"] ∧
    (["x.md_chunk_0", "x.md_chunk_0"] : List String).count "x.md_chunk_0" = 2 := by
  constructor
  · decide
  · decide

/-- Witness for the amended C8: two documents with distinct filenames give
pairwise-distinct ids. -/
theorem ingestion_ids_nodup_witness :
    ((keptFiles
        [("content/gold/a.md", faqSentence), ("content/crypto/b.md", faqSentence)]
        none).map fun f => jsFileName f.1).Nodup ∧
    ((handleProcessEmbeddings
        [("content/gold/a.md", faqSentence), ("content/crypto/b.md", faqSentence)]
        none (fun _ => [1]) "2024-01-01T00:00:00.000Z").map Record.id).Nodup :=
  ⟨by decide,
    ingestion_ids_nodup
      [("content/gold/a.md", faqSentence), ("content/crypto/b.md", faqSentence)]
      none (fun _ => [1]) "2024-01-01T00:00:00.000Z" (by decide)⟩
